import Mathlib

set_option maxHeartbeats 1000000

/- Shallow embedding of the hrabkin/snyk-insights repository:
   src/snyk_insights.py (record model, CSV ingestion) and
   src/html_report.py (the two aggregation strategies).
   Python dicts are modelled as insertion-ordered association lists,
   Python sets as first-insertion-ordered duplicate-free lists, and the
   Python built-in stable sort as an insertion sort that is stable. -/

/-- A parsed datetime value, as produced by datetime.strptime in snyk_insights.py. -/
structure DateTime where
  year : Nat
  month : Nat
  day : Nat
  hour : Nat
  minute : Nat
  second : Nat
  microsecond : Nat
deriving DecidableEq

/-- One validated Snyk issue record: the SnykIssue pydantic model of snyk_insights.py. -/
structure SnykIssue where
  issue_severity_rank : Int
  issue_severity : String
  score : Int
  problem_title : String
  cve : List String
  cve_url : List String
  cwe : List String
  project_name : String
  project_url : String
  exploit_maturity : Option String
  computed_fixability : String
  first_introduced : Option DateTime
  product_name : Option String
  issue_url : String
  issue_status_indicator : String
  issue_type : String
deriving DecidableEq

/-- Python dict update through `d[k] = f(d.get(k, dflt))`: an existing key is updated
in place, a fresh key is appended at the end (dict insertion order). This also models
`defaultdict` access followed by mutation of the entry. -/
def upsert {κ σ : Type} [DecidableEq κ] (f : σ → σ) (dflt : σ) (k : κ) :
    List (κ × σ) → List (κ × σ)
  | [] => [(k, f dflt)]
  | (k', v) :: t => if k' = k then (k', f v) :: t else (k', v) :: upsert f dflt k t

/-- Lookup in an association list (Python `d.get(k)`). -/
def lookupA {κ σ : Type} [DecidableEq κ] (m : List (κ × σ)) (k : κ) : Option σ :=
  match m with
  | [] => none
  | (k', v) :: t => if k' = k then some v else lookupA t k

/-- Python `defaultdict(int)` increment `m[k] += 1`. -/
def incr (m : List (String × Nat)) (k : String) : List (String × Nat) :=
  upsert (fun n => n + 1) 0 k m

/-- Python dict assignment `m[k] = v` (last write wins for an existing key). -/
def setAssoc (m : List (String × String)) (k v : String) : List (String × String) :=
  upsert (fun _ => v) v k m

/-- Python `s.add(x)` on a set, modelled as a duplicate-free list in first-insertion
order (the order is irrelevant downstream because every set is sorted on output). -/
def addSet (s : List String) (x : String) : List String :=
  if x ∈ s then s else s ++ [x]

/-- Sum of the values of a severity histogram. -/
def sumVals (m : List (String × Nat)) : Nat := (m.map Prod.snd).sum

/-- The CVE list actually iterated by html_report.py:
`cves = issue.cve if issue.cve else ['No CVE']` (an empty Python list is falsy). -/
def effCves (i : SnykIssue) : List String := if i.cve = [] then ["No CVE"] else i.cve

/-- The CWE list actually iterated by html_report.py:
`cwes = issue.cwe if issue.cwe else ['No CWE']`. -/
def effCwes (i : SnykIssue) : List String := if i.cwe = [] then ["No CWE"] else i.cwe

/-- The (cve, cwe) pairs visited by the nested `for cve in cves: for cwe in cwes:`
loops, in visit order: the Cartesian product of the effective CVE and CWE lists. -/
def cartPairs (i : SnykIssue) : List (String × String) :=
  (effCves i).flatMap (fun c => (effCwes i).map (fun w => (c, w)))

/-- The label string `f"{cve} + {cwe}"` built by prepare_data_project. -/
def mkLabel (p : String × String) : String := p.1 ++ " + " ++ p.2

/-- Per-key accumulator of prepare_data_cve_cwe (the defaultdict value dict). -/
structure CveCweAcc where
  issues : List SnykIssue
  severity_counts : List (String × Nat)
  projects : List (String × String)
  problem_titles : List String
  fixable_count : Nat
deriving DecidableEq

/-- The defaultdict default for prepare_data_cve_cwe. -/
def emptyCveCweAcc : CveCweAcc :=
  { issues := [], severity_counts := [], projects := [], problem_titles := []
    fixable_count := 0 }

/-- The contribution of one issue to a fixable counter:
`if issue.computed_fixability == "Fixable": ... += 1`. -/
def fixInc (i : SnykIssue) : Nat := if i.computed_fixability = "Fixable" then 1 else 0

/-- The mutations applied to one (cve, cwe) group for one issue in the inner loop of
prepare_data_cve_cwe: append the issue, bump its severity count, register the
project name to URL mapping, add the problem title, bump the fixable counter. -/
def bumpCveCwe (i : SnykIssue) (d : CveCweAcc) : CveCweAcc :=
  { issues := d.issues ++ [i]
    severity_counts := incr d.severity_counts i.issue_severity
    projects := setAssoc d.projects i.project_name i.project_url
    problem_titles := addSet d.problem_titles i.problem_title
    fixable_count := d.fixable_count + fixInc i }

/-- Accumulation state of prepare_data_cve_cwe: the cve_cwe_groups defaultdict. -/
abbrev CCState := List ((String × String) × CveCweAcc)

/-- Processing of one issue by the body of the outer loop of prepare_data_cve_cwe. -/
def stepCveCwe (s : CCState) (i : SnykIssue) : CCState :=
  (effCves i).foldl
    (fun s1 c =>
      (effCwes i).foldl
        (fun s2 w => upsert (bumpCveCwe i) emptyCveCweAcc (c, w) s2) s1) s

/-- The full accumulation loop of prepare_data_cve_cwe. -/
def accumulateCC (issues : List SnykIssue) : CCState := issues.foldl stepCveCwe []

/-- Per-key accumulator of prepare_data_project. -/
structure ProjAcc where
  issues : List SnykIssue
  severity_counts : List (String × Nat)
  cve_cwe_pairs : List String
  problem_titles : List String
  fixable_count : Nat
deriving DecidableEq

/-- The defaultdict default for prepare_data_project. -/
def emptyProjAcc : ProjAcc :=
  { issues := [], severity_counts := [], cve_cwe_pairs := [], problem_titles := []
    fixable_count := 0 }

/-- The grouping key of prepare_data_project: `(issue.project_name, issue.project_url)`. -/
def projKey (i : SnykIssue) : String × String := (i.project_name, i.project_url)

/-- The mutations applied to one project group for one issue in the loop body of
prepare_data_project, including the nested loops adding `f"{cve} + {cwe}"` labels. -/
def bumpProj (i : SnykIssue) (d : ProjAcc) : ProjAcc :=
  { issues := d.issues ++ [i]
    severity_counts := incr d.severity_counts i.issue_severity
    cve_cwe_pairs :=
      (effCves i).foldl
        (fun ps c => (effCwes i).foldl (fun ps2 w => addSet ps2 (mkLabel (c, w))) ps)
        d.cve_cwe_pairs
    problem_titles := addSet d.problem_titles i.problem_title
    fixable_count := d.fixable_count + fixInc i }

/-- Accumulation state of prepare_data_project: the project_groups defaultdict. -/
abbrev PState := List ((String × String) × ProjAcc)

/-- Processing of one issue by the loop body of prepare_data_project. -/
def stepProject (s : PState) (i : SnykIssue) : PState :=
  upsert (bumpProj i) emptyProjAcc (projKey i) s

/-- The full accumulation loop of prepare_data_project. -/
def accumulateP (issues : List SnykIssue) : PState := issues.foldl stepProject []

/-- Stable insertion step: x is placed before the first element h with le x h.
Together with insSort this models the Python built-in stable sort. -/
def insertLe {α : Type} (le : α → α → Bool) (x : α) : List α → List α
  | [] => [x]
  | h :: t => if le x h then x :: h :: t else h :: insertLe le x t

/-- Stable sort modelling Python sorted: an element placed with insertLe comes
before every later element it compares le-equal to. -/
def insSort {α : Type} (le : α → α → Bool) : List α → List α
  | [] => []
  | x :: xs => insertLe le x (insSort le xs)

/-- String comparison used by Python sorted on str (code-point lexicographic). -/
def strLe (a b : String) : Bool := decide (a ≤ b)

/-- Tuple comparison used by Python sorted on (name, url) pairs. -/
def pairLe (a b : String × String) : Bool :=
  decide (a.1 < b.1 ∨ (a.1 = b.1 ∧ a.2 ≤ b.2))

/-- Comparison realising `sorted(..., key=lambda x: len(x[1]['issues']), reverse=True)`
for the cve-cwe strategy: a stays before b exactly when its issue count is not
smaller, which together with insSort reproduces the stability of Python sorted
under reverse=True. -/
def ccCountGe (a b : (String × String) × CveCweAcc) : Bool :=
  decide (b.2.issues.length ≤ a.2.issues.length)

/-- Same comparison for the project strategy. -/
def pCountGe (a b : (String × String) × ProjAcc) : Bool :=
  decide (b.2.issues.length ≤ a.2.issues.length)

/-- One output group dict of prepare_data_cve_cwe. -/
structure CveCweGroup where
  cve : String
  cwe : String
  total_issues : Nat
  fixable_count : Nat
  severity_counts : List (String × Nat)
  problem_titles : List String
  projects : List (String × String)
deriving DecidableEq

/-- Build the output dict of one cve-cwe group: counts taken over, problem titles
sorted, projects dict items sorted (tuple order; keys are distinct names). -/
def mkCveCweGroup (kd : (String × String) × CveCweAcc) : CveCweGroup :=
  { cve := kd.1.1
    cwe := kd.1.2
    total_issues := kd.2.issues.length
    fixable_count := kd.2.fixable_count
    severity_counts := kd.2.severity_counts
    problem_titles := insSort strLe kd.2.problem_titles
    projects := insSort pairLe kd.2.projects }

/-- HTMLReportGenerator.prepare_data_cve_cwe of html_report.py. -/
def prepare_data_cve_cwe (issues : List SnykIssue) : List CveCweGroup :=
  (insSort ccCountGe (accumulateCC issues)).map mkCveCweGroup

/-- One output group dict of prepare_data_project. -/
structure ProjectGroup where
  project_name : String
  project_url : String
  total_issues : Nat
  fixable_count : Nat
  severity_counts : List (String × Nat)
  problem_titles : List String
  cve_cwe_pairs : List String
deriving DecidableEq

/-- Build the output dict of one project group. -/
def mkProjectGroup (kd : (String × String) × ProjAcc) : ProjectGroup :=
  { project_name := kd.1.1
    project_url := kd.1.2
    total_issues := kd.2.issues.length
    fixable_count := kd.2.fixable_count
    severity_counts := kd.2.severity_counts
    problem_titles := insSort strLe kd.2.problem_titles
    cve_cwe_pairs := insSort strLe kd.2.cve_cwe_pairs }

/-- HTMLReportGenerator.prepare_data_project of html_report.py. -/
def prepare_data_project (issues : List SnykIssue) : List ProjectGroup :=
  (insSort pCountGe (accumulateP issues)).map mkProjectGroup

/-- A group dict of either strategy (the Python code returns plain dicts whose
shape depends on the strategy). -/
inductive GroupDict where
  | cveCwe : CveCweGroup → GroupDict
  | project : ProjectGroup → GroupDict
deriving DecidableEq

/-- The total_issues field of a group dict of either shape. -/
def GroupDict.total_issues : GroupDict → Nat
  | .cveCwe g => g.total_issues
  | .project g => g.total_issues

/-- The fixable_count field of a group dict of either shape. -/
def GroupDict.fixable_count : GroupDict → Nat
  | .cveCwe g => g.fixable_count
  | .project g => g.fixable_count

/-- The severity_counts field of a group dict of either shape. -/
def GroupDict.severity_counts : GroupDict → List (String × Nat)
  | .cveCwe g => g.severity_counts
  | .project g => g.severity_counts

/-- The dictionary returned by HTMLReportGenerator.prepare_data. -/
structure ReportData where
  total_issues : Nat
  total_groups : Nat
  severity_counts : List (String × Nat)
  fixable_count : Nat
  groups : List GroupDict
  group_by : String
deriving DecidableEq

/-- HTMLReportGenerator.prepare_data of html_report.py: global statistics plus the
strategy dispatch on `group_by == 'project'`. -/
def prepare_data (issues : List SnykIssue) (group_by : String) : ReportData :=
  let severity_counts := issues.foldl (fun m i => incr m i.issue_severity) []
  let fixable_count := issues.foldl (fun n i => n + fixInc i) 0
  let groups :=
    if group_by = "project" then (prepare_data_project issues).map GroupDict.project
    else (prepare_data_cve_cwe issues).map GroupDict.cveCwe
  { total_issues := issues.length
    total_groups := groups.length
    severity_counts := severity_counts
    fixable_count := fixable_count
    groups := groups
    group_by := group_by }

/-- A parsed JSON value, as produced by json.loads in snyk_insights.py. Numbers are
kept as their lexeme (no claim depends on numeric decoding); objects are kept as
member lists in textual order. -/
inductive Json where
  | null : Json
  | bool (b : Bool) : Json
  | num (lexeme : String) : Json
  | str (s : String) : Json
  | arr (elements : List Json) : Json
  | obj (members : List (String × Json)) : Json

/-- Lowercase hex digit of n mod 16, as used by the c-style format in json.dumps. -/
def toHexDigit (n : Nat) : Char :=
  if n % 16 < 10 then Char.ofNat (48 + n % 16) else Char.ofNat (97 + (n % 16 - 10))

/-- The six characters of a JSON unicode escape for code unit n < 0x10000. -/
def uEscape (n : Nat) : List Char :=
  ['\\', 'u', toHexDigit (n / 4096), toHexDigit (n / 256 % 16),
   toHexDigit (n / 16 % 16), toHexDigit (n % 16)]

/-- Escaping of one character by json.dumps with the default ensure_ascii=True:
backslash, quote and everything outside the printable ASCII range 0x20..0x7e is
escaped, with short escapes for the usual control characters and surrogate pairs
for characters beyond 0xffff. -/
def escChar (c : Char) : List Char :=
  if c = '"' then ['\\', '"']
  else if c = '\\' then ['\\', '\\']
  else if 0x20 ≤ c.toNat ∧ c.toNat ≤ 0x7e then [c]
  else if c = '\x08' then ['\\', 'b']
  else if c = '\x09' then ['\\', 't']
  else if c = '\x0a' then ['\\', 'n']
  else if c = '\x0c' then ['\\', 'f']
  else if c = '\x0d' then ['\\', 'r']
  else if c.toNat < 0x10000 then uEscape c.toNat
  else uEscape (0xd800 + (c.toNat - 0x10000) / 0x400) ++
       uEscape (0xdc00 + (c.toNat - 0x10000) % 0x400)

/-- A JSON string literal for s: quote, escaped characters, quote. -/
def encodeStringLit (s : String) : List Char :=
  '"' :: (s.data.flatMap escChar ++ ['"'])

/-- The element section of json.dumps of a list of strings, with the default
item separator of a comma followed by one space. -/
def dumpsElems : List String → List Char
  | [] => []
  | [s] => encodeStringLit s
  | s :: rest => encodeStringLit s ++ (',' :: ' ' :: dumpsElems rest)

/-- json.dumps of a list of strings with default options. -/
def json_dumps_strList (l : List String) : String :=
  String.mk ('[' :: (dumpsElems l ++ [']']))

/-- Value of one hex digit, upper or lower case (as accepted by the json parser). -/
def hexVal (c : Char) : Option Nat :=
  if '0' ≤ c ∧ c ≤ '9' then some (c.toNat - 48)
  else if 'a' ≤ c ∧ c ≤ 'f' then some (c.toNat - 97 + 10)
  else if 'A' ≤ c ∧ c ≤ 'F' then some (c.toNat - 65 + 10)
  else none

/-- Prepend a decoded character to the result of parsing the rest of a string body. -/
def consMap (c : Char) (o : Option (List Char × List Char)) :
    Option (List Char × List Char) :=
  o.map (fun p => (c :: p.1, p.2))

/-- The json string scanner (strict scanstring) after the opening quote: literal
characters up to the closing quote, backslash escapes including unicode escapes and
surrogate pairs, rejection of raw control characters. A lone surrogate, which
Python would keep as an unpaired surrogate code unit, is not representable in a
Lean string and is parsed as a failure; such inputs are outside every claim.
The fuel argument only bounds the recursion depth and is consumed once per
decoded character; scanString supplies more than enough. -/
def parseStrBody : Nat → List Char → Option (List Char × List Char)
  | 0, _ => none
  | f + 1, l =>
    match l with
    | [] => none
    | ch :: r =>
      if ch = '"' then some ([], r)
      else if ch = '\\' then
        match r with
        | [] => none
        | e :: r1 =>
          if e = '"' then consMap '"' (parseStrBody f r1)
          else if e = '\\' then consMap '\\' (parseStrBody f r1)
          else if e = '/' then consMap '/' (parseStrBody f r1)
          else if e = 'b' then consMap '\x08' (parseStrBody f r1)
          else if e = 'f' then consMap '\x0c' (parseStrBody f r1)
          else if e = 'n' then consMap '\x0a' (parseStrBody f r1)
          else if e = 'r' then consMap '\x0d' (parseStrBody f r1)
          else if e = 't' then consMap '\x09' (parseStrBody f r1)
          else if e = 'u' then
            match r1 with
            | a :: b :: c :: d :: r2 =>
              match hexVal a, hexVal b, hexVal c, hexVal d with
              | some x, some y, some z, some w =>
                let n := 4096 * x + 256 * y + 16 * z + w
                if 0xd800 ≤ n ∧ n < 0xdc00 then
                  match r2 with
                  | a2 :: b2 :: c2 :: d2 :: e2 :: f2 :: r3 =>
                    if a2 = '\\' ∧ b2 = 'u' then
                      match hexVal c2, hexVal d2, hexVal e2, hexVal f2 with
                      | some x2, some y2, some z2, some w2 =>
                        let m := 4096 * x2 + 256 * y2 + 16 * z2 + w2
                        if 0xdc00 ≤ m ∧ m < 0xe000 then
                          consMap (Char.ofNat (0x10000 + (n - 0xd800) * 0x400 + (m - 0xdc00)))
                            (parseStrBody f r3)
                        else none
                      | _, _, _, _ => none
                    else none
                  | _ => none
                else if 0xdc00 ≤ n ∧ n < 0xe000 then none
                else consMap (Char.ofNat n) (parseStrBody f r2)
              | _, _, _, _ => none
            | _ => none
          else none
      else if ch.toNat < 0x20 then none
      else consMap ch (parseStrBody f r)

/-- The string scanner with enough fuel for its input (at most one decoded
character per input character). -/
def scanString (l : List Char) : Option (List Char × List Char) :=
  parseStrBody (l.length + 1) l

/-- Whitespace skipped by the json decoder: space, tab, newline, carriage return. -/
def isJsonWs (c : Char) : Bool := c = ' ' ∨ c = '\x09' ∨ c = '\x0a' ∨ c = '\x0d'

/-- Skip json whitespace. -/
def skipWs : List Char → List Char
  | [] => []
  | c :: r => if isJsonWs c then skipWs r else c :: r

/-- Greedily take decimal digits. -/
def takeDigits : List Char → List Char × List Char
  | [] => ([], [])
  | c :: r =>
    if c.isDigit then
      let p := takeDigits r
      (c :: p.1, p.2)
    else ([], c :: r)

/-- The integer part of the json number lexeme: 0, or a nonzero digit followed by
digits (the json grammar forbids leading zeros). -/
def parseIntPart : List Char → Option (List Char × List Char)
  | [] => none
  | c :: r =>
    if c = '0' then some (['0'], r)
    else if c.isDigit then
      let p := takeDigits r
      some (c :: p.1, p.2)
    else none

/-- The optional fraction part: a dot followed by at least one digit, otherwise
nothing is consumed. -/
def parseFracPart (l : List Char) : List Char × List Char :=
  match l with
  | '.' :: r =>
    match takeDigits r with
    | ([], _) => ([], l)
    | (ds, rest) => ('.' :: ds, rest)
  | _ => ([], l)

/-- The optional exponent part: e or E, an optional sign, at least one digit,
otherwise nothing is consumed. -/
def parseExpPart (l : List Char) : List Char × List Char :=
  match l with
  | e :: r =>
    if e = 'e' ∨ e = 'E' then
      match r with
      | s :: r2 =>
        if s = '+' ∨ s = '-' then
          match takeDigits r2 with
          | ([], _) => ([], l)
          | (ds, rest) => (e :: s :: ds, rest)
        else
          match takeDigits r with
          | ([], _) => ([], l)
          | (ds, rest) => (e :: ds, rest)
      | [] => ([], l)
    else ([], l)
  | [] => ([], l)

/-- The json number lexer: optional minus sign, integer part, optional fraction,
optional exponent, with the consumed lexeme returned as a string. -/
def parseNumber (l : List Char) : Option (String × List Char) :=
  let sl := match l with
    | '-' :: r => (['-'], r)
    | _ => (([] : List Char), l)
  match parseIntPart sl.2 with
  | none => none
  | some (ip, l2) =>
    let fp := parseFracPart l2
    let ep := parseExpPart fp.2
    some (String.mk (sl.1 ++ ip ++ fp.1 ++ ep.1), ep.2)

mutual

/-- The json value scanner: dispatch on the first character, mirroring the decoder
of the json module (strings, arrays, objects, the three keyword literals, the
non-finite float names accepted by default, and numbers). The fuel argument bounds
the recursion depth and is set large enough by json_loads. -/
def parseVal : Nat → List Char → Option (Json × List Char)
  | 0, _ => none
  | f + 1, l =>
    match l with
    | [] => none
    | '"' :: r => (scanString r).map (fun p => (Json.str (String.mk p.1), p.2))
    | '[' :: r =>
      match skipWs r with
      | ']' :: r2 => some (Json.arr [], r2)
      | r1 => parseArrItems f r1 []
    | '{' :: r =>
      match skipWs r with
      | '}' :: r2 => some (Json.obj [], r2)
      | r1 => parseObjItems f r1 []
    | 't' :: 'r' :: 'u' :: 'e' :: r => some (Json.bool true, r)
    | 'f' :: 'a' :: 'l' :: 's' :: 'e' :: r => some (Json.bool false, r)
    | 'n' :: 'u' :: 'l' :: 'l' :: r => some (Json.null, r)
    | 'N' :: 'a' :: 'N' :: r => some (Json.num ("NaN"), r)
    | 'I' :: 'n' :: 'f' :: 'i' :: 'n' :: 'i' :: 't' :: 'y' :: r =>
      some (Json.num ("Infinity"), r)
    | '-' :: 'I' :: 'n' :: 'f' :: 'i' :: 'n' :: 'i' :: 't' :: 'y' :: r =>
      some (Json.num ("-Infinity"), r)
    | _ => (parseNumber l).map (fun p => (Json.num p.1, p.2))

/-- The element loop of the json array decoder: value, then comma and more
elements or a closing bracket. -/
def parseArrItems : Nat → List Char → List Json → Option (Json × List Char)
  | 0, _, _ => none
  | f + 1, l, acc =>
    match parseVal f l with
    | none => none
    | some (v, r) =>
      match skipWs r with
      | ']' :: r2 => some (Json.arr (acc ++ [v]), r2)
      | ',' :: r2 => parseArrItems f (skipWs r2) (acc ++ [v])
      | _ => none

/-- The member loop of the json object decoder: string key, colon, value, then
comma and more members or a closing brace. -/
def parseObjItems : Nat → List Char → List (String × Json) → Option (Json × List Char)
  | 0, _, _ => none
  | f + 1, l, acc =>
    match l with
    | '"' :: r =>
      match scanString r with
      | none => none
      | some (k, r1) =>
        match skipWs r1 with
        | ':' :: r2 =>
          match parseVal f (skipWs r2) with
          | none => none
          | some (v, r3) =>
            match skipWs r3 with
            | '}' :: r4 => some (Json.obj (acc ++ [(String.mk k, v)]), r4)
            | ',' :: r4 => parseObjItems f (skipWs r4) (acc ++ [(String.mk k, v)])
            | _ => none
        | _ => none
    | _ => none

end

/-- json.loads of snyk_insights.py: skip whitespace, scan one value, skip trailing
whitespace, and fail when anything is left over. The fuel is one more than the
input length, which bounds every possible recursion depth. -/
def json_loads (s : String) : Option Json :=
  match parseVal (s.data.length + 1) (skipWs s.data) with
  | none => none
  | some (v, r) => if skipWs r = [] then some v else none

/-- A raw value handed to the pydantic before-validators: a CSV cell string, an
absent cell (None), an already-list value, or anything else. -/
inductive PyValue where
  | str (s : String) : PyValue
  | list (xs : List Json) : PyValue
  | pyNone : PyValue
  | other : PyValue

/-- SnykIssue.parse_json_array of snyk_insights.py: a string is json-parsed and
kept only when the parse succeeds and yields a list, any other string becomes the
empty list; a list passes through; every other value becomes the empty list. -/
def parse_json_array (v : PyValue) : List Json :=
  match v with
  | .str s =>
    match json_loads s with
    | some (Json.arr xs) => xs
    | some _ => []
    | none => []
  | .list xs => xs
  | .pyNone => []
  | .other => []

/-- Pydantic validation of a List[str] field after the before-validator: every
element must be a json string, there is no coercion from other json values. -/
def asStrList : List Json → Except String (List String)
  | [] => .ok []
  | Json.str s :: rest => (asStrList rest).map (fun l => s :: l)
  | _ :: _ => .error ("Input should be a valid string")

/-- Numeric value of a decimal digit character. -/
def digitVal (c : Char) : Nat := c.toNat - 48

/-- The strptime directive %Y: exactly four digits. -/
def parseY : List Char → Option (Nat × List Char)
  | a :: b :: c :: d :: r =>
    if a.isDigit ∧ b.isDigit ∧ c.isDigit ∧ d.isDigit then
      some (1000 * digitVal a + 100 * digitVal b + 10 * digitVal c + digitVal d, r)
    else none
  | _ => none

/-- The strptime directive %m, the regex alternation 1[0-2], 0[1-9], [1-9]. -/
def parseMon : List Char → Option (Nat × List Char)
  | a :: b :: r =>
    if a = '1' ∧ ('0' ≤ b ∧ b ≤ '2') then some (10 + digitVal b, r)
    else if a = '0' ∧ ('1' ≤ b ∧ b ≤ '9') then some (digitVal b, r)
    else if '1' ≤ a ∧ a ≤ '9' then some (digitVal a, b :: r)
    else none
  | [a] => if '1' ≤ a ∧ a ≤ '9' then some (digitVal a, []) else none
  | [] => none

/-- The strptime directive %d, the regex alternation 3[01], [12] digit, 0[1-9], [1-9]. -/
def parseDay : List Char → Option (Nat × List Char)
  | a :: b :: r =>
    if a = '3' ∧ ('0' ≤ b ∧ b ≤ '1') then some (30 + digitVal b, r)
    else if ('1' ≤ a ∧ a ≤ '2') ∧ b.isDigit then some (10 * digitVal a + digitVal b, r)
    else if a = '0' ∧ ('1' ≤ b ∧ b ≤ '9') then some (digitVal b, r)
    else if '1' ≤ a ∧ a ≤ '9' then some (digitVal a, b :: r)
    else none
  | [a] => if '1' ≤ a ∧ a ≤ '9' then some (digitVal a, []) else none
  | [] => none

/-- The strptime directive %H, the regex alternation 2[0-3], [0-1] digit, digit. -/
def parseHour : List Char → Option (Nat × List Char)
  | a :: b :: r =>
    if a = '2' ∧ ('0' ≤ b ∧ b ≤ '3') then some (20 + digitVal b, r)
    else if ('0' ≤ a ∧ a ≤ '1') ∧ b.isDigit then some (10 * digitVal a + digitVal b, r)
    else if a.isDigit then some (digitVal a, b :: r)
    else none
  | [a] => if a.isDigit then some (digitVal a, []) else none
  | [] => none

/-- The strptime directive %M, the regex alternation [0-5] digit, digit. -/
def parseMin : List Char → Option (Nat × List Char)
  | a :: b :: r =>
    if ('0' ≤ a ∧ a ≤ '5') ∧ b.isDigit then some (10 * digitVal a + digitVal b, r)
    else if a.isDigit then some (digitVal a, b :: r)
    else none
  | [a] => if a.isDigit then some (digitVal a, []) else none
  | [] => none

/-- The strptime directive %S, the regex alternation 6[0-1], [0-5] digit, digit
(leap seconds are admitted by the regex and rejected by the datetime constructor). -/
def parseSec : List Char → Option (Nat × List Char)
  | a :: b :: r =>
    if a = '6' ∧ ('0' ≤ b ∧ b ≤ '1') then some (60 + digitVal b, r)
    else if ('0' ≤ a ∧ a ≤ '5') ∧ b.isDigit then some (10 * digitVal a + digitVal b, r)
    else if a.isDigit then some (digitVal a, b :: r)
    else none
  | [a] => if a.isDigit then some (digitVal a, []) else none
  | [] => none

/-- The strptime directive %f: one to six digits taken greedily, right-padded with
zeros to microseconds. -/
def parseFrac (l : List Char) : Option (Nat × List Char) :=
  match takeDigits l with
  | ([], _) => none
  | (ds, rest) =>
    let ds6 := ds.take 6
    let rest6 := ds.drop 6 ++ rest
    some ((ds6.foldl (fun n c => 10 * n + digitVal c) 0) * 10 ^ (6 - ds6.length), rest6)

/-- A literal character of the strptime format. -/
def parseLit (c : Char) : List Char → Option (List Char)
  | [] => none
  | a :: r => if a = c then some r else none

/-- Leap year rule of the datetime module. -/
def isLeap (y : Nat) : Bool := (y % 4 = 0 ∧ y % 100 ≠ 0) ∨ y % 400 = 0

/-- Days of a month according to the datetime module. -/
def daysInMonth (y m : Nat) : Nat :=
  if m = 2 then (if isLeap y then 29 else 28)
  else if m = 4 ∨ m = 6 ∨ m = 9 ∨ m = 11 then 30
  else 31

/-- The range checks of the datetime constructor: the fields already bounded by
the strptime regex are rechecked where the regex is looser (year 0, day versus
month length, leap seconds). -/
def mkValidDateTime (y mo d h mi s us : Nat) : Option DateTime :=
  if 1 ≤ y ∧ (1 ≤ d ∧ d ≤ daysInMonth y mo) ∧ s ≤ 59 then
    some { year := y, month := mo, day := d, hour := h, minute := mi, second := s
           microsecond := us }
  else none

/-- datetime.strptime with format string `%Y-%m-%d %H:%M:%S.%f`: the six dashed
and coloned fields, a dot, the fraction, no leftover input, then the datetime
constructor checks. -/
def strptime_micro (str : String) : Option DateTime :=
  match parseY str.data with
  | none => none
  | some (y, r1) =>
    match parseLit '-' r1 with
    | none => none
    | some r2 =>
      match parseMon r2 with
      | none => none
      | some (mo, r3) =>
        match parseLit '-' r3 with
        | none => none
        | some r4 =>
          match parseDay r4 with
          | none => none
          | some (d, r5) =>
            match parseLit ' ' r5 with
            | none => none
            | some r6 =>
              match parseHour r6 with
              | none => none
              | some (h, r7) =>
                match parseLit ':' r7 with
                | none => none
                | some r8 =>
                  match parseMin r8 with
                  | none => none
                  | some (mi, r9) =>
                    match parseLit ':' r9 with
                    | none => none
                    | some r10 =>
                      match parseSec r10 with
                      | none => none
                      | some (s, r11) =>
                        match parseLit '.' r11 with
                        | none => none
                        | some r12 =>
                          match parseFrac r12 with
                          | none => none
                          | some (us, r13) =>
                            if r13 = [] then mkValidDateTime y mo d h mi s us
                            else none

/-- datetime.strptime with format string `%Y-%m-%d %H:%M:%S`. -/
def strptime_sec (str : String) : Option DateTime :=
  match parseY str.data with
  | none => none
  | some (y, r1) =>
    match parseLit '-' r1 with
    | none => none
    | some r2 =>
      match parseMon r2 with
      | none => none
      | some (mo, r3) =>
        match parseLit '-' r3 with
        | none => none
        | some r4 =>
          match parseDay r4 with
          | none => none
          | some (d, r5) =>
            match parseLit ' ' r5 with
            | none => none
            | some r6 =>
              match parseHour r6 with
              | none => none
              | some (h, r7) =>
                match parseLit ':' r7 with
                | none => none
                | some r8 =>
                  match parseMin r8 with
                  | none => none
                  | some (mi, r9) =>
                    match parseLit ':' r9 with
                    | none => none
                    | some r10 =>
                      match parseSec r10 with
                      | none => none
                      | some (s, r11) =>
                        if r11 = [] then mkValidDateTime y mo d h mi s 0
                        else none

/-- SnykIssue.parse_datetime of snyk_insights.py on a CSV cell (None or a string):
None and the empty string become None, otherwise the first format is tried, then
the second, and if both fail a ValueError naming the value is raised. -/
def parse_datetime (v : Option String) : Except String (Option DateTime) :=
  match v with
  | none => .ok none
  | some s =>
    if s = "" then .ok none
    else
      match strptime_micro s with
      | some d => .ok (some d)
      | none =>
        match strptime_sec s with
        | some d => .ok (some d)
        | none => .error ("Unable to parse datetime: " ++ s)

/-- One CSV data row as produced by csv.DictReader: header names mapped to cell
strings (a short row yields None cells). -/
abbrev Row := List (String × Option String)

/-- Cell access in a DictReader row. -/
def rowGet (r : Row) (k : String) : Option (Option String) := lookupA r k

/-- Pydantic validation of a required str field: the key must be present and hold
a string. -/
def requireStr (r : Row) (k : String) : Except String String :=
  match rowGet r k with
  | none => .error (k ++ ": Field required")
  | some none => .error (k ++ ": Input should be a valid string")
  | some (some s) => .ok s

/-- Model of the pydantic lax string-to-int coercion: optional sign, then at
least one decimal digit. -/
def parseIntStr (s : String) : Option Int :=
  let digitsVal : List Char → Option Nat := fun ds =>
    if ds ≠ [] ∧ ds.all Char.isDigit then
      some (ds.foldl (fun n c => 10 * n + digitVal c) 0)
    else none
  match s.data with
  | '-' :: ds => (digitsVal ds).map (fun n => -(n : Int))
  | '+' :: ds => (digitsVal ds).map (fun n => (n : Int))
  | ds => (digitsVal ds).map (fun n => (n : Int))

/-- Pydantic validation of a required int field. -/
def requireInt (r : Row) (k : String) : Except String Int :=
  match rowGet r k with
  | none => .error (k ++ ": Field required")
  | some none => .error (k ++ ": Input should be a valid integer")
  | some (some s) =>
    match parseIntStr s with
    | some n => .ok n
    | none => .error (k ++ ": Input should be a valid integer")

/-- Pydantic validation of an Optional[str] field with default None. -/
def optStrField (r : Row) (k : String) : Option String :=
  match rowGet r k with
  | none => none
  | some none => none
  | some (some s) => some s

/-- Pydantic validation of a List[str] field with the parse_json_array
before-validator and an empty default. -/
def listField (r : Row) (k : String) : Except String (List String) :=
  match rowGet r k with
  | none => .ok []
  | some none => asStrList (parse_json_array PyValue.pyNone)
  | some (some s) => asStrList (parse_json_array (PyValue.str s))

/-- Pydantic validation of the first_introduced field with the parse_datetime
before-validator and a None default. -/
def dtField (r : Row) (k : String) : Except String (Option DateTime) :=
  match rowGet r k with
  | none => .ok none
  | some v => parse_datetime v

/-- Validation of one CSV row into a SnykIssue, modelling `SnykIssue(**row)`:
every field is coerced by its rule and the first failure rejects the row. -/
def validateRow (r : Row) : Except String SnykIssue := do
  let rank ← requireInt r ("ISSUE_SEVERITY_RANK")
  let sev ← requireStr r ("ISSUE_SEVERITY")
  let score ← requireInt r ("SCORE")
  let title ← requireStr r ("PROBLEM_TITLE")
  let cve ← listField r ("CVE")
  let cveUrl ← listField r ("CVE_URL")
  let cwe ← listField r ("CWE")
  let pname ← requireStr r ("PROJECT_NAME")
  let purl ← requireStr r ("PROJECT_URL")
  let fix ← requireStr r ("COMPUTED_FIXABILITY")
  let intro ← dtField r ("FIRST_INTRODUCED")
  let iurl ← requireStr r ("ISSUE_URL")
  let istat ← requireStr r ("ISSUE_STATUS_INDICATOR")
  let ityp ← requireStr r ("ISSUE_TYPE")
  .ok { issue_severity_rank := rank
        issue_severity := sev
        score := score
        problem_title := title
        cve := cve
        cve_url := cveUrl
        cwe := cwe
        project_name := pname
        project_url := purl
        exploit_maturity := optStrField r ("EXPLOIT_MATURITY")
        computed_fixability := fix
        first_introduced := intro
        product_name := optStrField r ("PRODUCT_NAME")
        issue_url := iurl
        issue_status_indicator := istat
        issue_type := ityp }

/-- The ingestion loop of read_csv_to_models: row numbers counted from 2 (row 1
is the header), successes appended to the result, failures appended to the
diagnostic stream with their row number, processing always continuing. -/
def readLoop (rows : List Row) (n : Nat) (acc : List SnykIssue)
    (diags : List (Nat × String)) : List SnykIssue × List (Nat × String) :=
  match rows with
  | [] => (acc, diags)
  | r :: rs =>
    match validateRow r with
    | .ok i => readLoop rs (n + 1) (acc ++ [i]) diags
    | .error e => readLoop rs (n + 1) acc (diags ++ [(n, e)])

/-- read_csv_to_models of snyk_insights.py on the data rows of the CSV file. -/
def read_csv_to_models (rows : List Row) : List SnykIssue × List (Nat × String) :=
  readLoop rows 2 [] []

/-- One step of collecting keys in first-encounter order: a known key changes
nothing, a new key is appended. -/
def seenStep {α : Type} [DecidableEq α] (acc : List α) (k : α) : List α :=
  if k ∈ acc then acc else acc ++ [k]

/-- First occurrences of the elements of a list, in first-encounter order: the
insertion order of the keys of a Python dict fed with these keys. -/
def firstOccs {α : Type} [DecidableEq α] (l : List α) : List α :=
  l.foldl seenStep []

/-- Count stored for a key in a severity histogram (0 when absent). -/
def cntOf (m : List (String × Nat)) (k : String) : Nat := (lookupA m k).getD 0

/-- The group accumulator stored for a key in the cve-cwe state, or the
defaultdict default. -/
def ccGroupAt (s : CCState) (k : String × String) : CveCweAcc :=
  (lookupA s k).getD emptyCveCweAcc

/-- The group accumulator stored for a key in the project state, or the
defaultdict default. -/
def pGroupAt (s : PState) (k : String × String) : ProjAcc :=
  (lookupA s k).getD emptyProjAcc

/-- The name-keyed last-write-wins mapping of a list of (name, url) pairs: the
content of a Python dict after `d[name] = url` for each pair in order. -/
def lastWrites (ps : List (String × String)) : List (String × String) :=
  ps.foldl (fun m p => setAssoc m p.1 p.2) []

/-- A concrete issue record used by witnesses. -/
def wIssue : SnykIssue :=
  { issue_severity_rank := 1
    issue_severity := "High"
    score := 700
    problem_title := "T1"
    cve := ["CVE-1", "CVE-2"]
    cve_url := []
    cwe := ["CWE-A"]
    project_name := "P"
    project_url := "u1"
    exploit_maturity := none
    computed_fixability := "Fixable"
    first_introduced := none
    product_name := none
    issue_url := "iu"
    issue_status_indicator := "open"
    issue_type := "vuln" }

/-- First member record of the C9 counterexample: project name P with URL u1. -/
def cexIssue1 : SnykIssue :=
  { wIssue with cve := ["C"], cwe := ["W"], project_url := "u1" }

/-- Second member record of the C9 counterexample: the same project name P but
the distinct URL u2, same (cve, cwe) key. -/
def cexIssue2 : SnykIssue :=
  { wIssue with cve := ["C"], cwe := ["W"], project_url := "u2" }


/-- Number of occurrences of a value in a list. -/
def countOcc {α : Type} [DecidableEq α] (a : α) (l : List α) : Nat :=
  (l.filter (fun b => decide (b = a))).length

/-- The first output group of prepare_data_cve_cwe on [wIssue], used by witnesses. -/
def gW : CveCweGroup :=
  { cve := "CVE-1", cwe := "CWE-A", total_issues := 1, fixable_count := 1
    severity_counts := [("High", 1)], problem_titles := ["T1"]
    projects := [("P", "u1")] }

lemma lookupA_upsert_self {κ σ : Type} [DecidableEq κ] (f : σ → σ) (d : σ) (k : κ)
    (m : List (κ × σ)) :
    lookupA (upsert f d k m) k = some (f ((lookupA m k).getD d)) := by
  induction m with
  | nil => simp [upsert, lookupA]
  | cons e t ih =>
    obtain ⟨k', v⟩ := e
    by_cases h : k' = k
    · subst h; simp [upsert, lookupA]
    · simp [upsert, lookupA, h, ih]

lemma lookupA_upsert_ne {κ σ : Type} [DecidableEq κ] (f : σ → σ) (d : σ) (k q : κ)
    (m : List (κ × σ)) (h : q ≠ k) :
    lookupA (upsert f d k m) q = lookupA m q := by
  induction m with
  | nil =>
    have hkq : ¬ (k = q) := fun hh => h hh.symm
    simp [upsert, lookupA, hkq]
  | cons e t ih =>
    obtain ⟨k', v⟩ := e
    by_cases hk : k' = k
    · subst hk
      have hkq : ¬ (k' = q) := fun hh => h hh.symm
      simp [upsert, lookupA, hkq]
    · simp [upsert, lookupA, hk, ih]

lemma countOcc_cons_self {α : Type} [DecidableEq α] (a : α) (l : List α) :
    countOcc a (a :: l) = countOcc a l + 1 := by
  simp [countOcc, List.filter_cons]

lemma countOcc_cons_ne {α : Type} [DecidableEq α] (a k : α) (l : List α)
    (h : k ≠ a) : countOcc a (k :: l) = countOcc a l := by
  simp [countOcc, List.filter_cons, h]

lemma countOcc_eq_zero {α : Type} [DecidableEq α] (a : α) (l : List α)
    (h : a ∉ l) : countOcc a l = 0 := by
  induction l with
  | nil => rfl
  | cons k t ih =>
    simp only [List.mem_cons, not_or] at h
    rw [countOcc_cons_ne a k t (fun hh => h.1 hh.symm), ih h.2]

lemma countOcc_eq_one_of_mem {α : Type} [DecidableEq α] (a : α) (l : List α)
    (hd : l.Nodup) (h : a ∈ l) : countOcc a l = 1 := by
  induction l with
  | nil => cases h
  | cons k t ih =>
    rcases List.nodup_cons.mp hd with ⟨hk, ht⟩
    rcases List.mem_cons.mp h with h1 | h1
    · subst h1
      rw [countOcc_cons_self, countOcc_eq_zero a t hk]
    · have hka : k ≠ a := fun hh => hk (hh ▸ h1)
      rw [countOcc_cons_ne a k t hka, ih ht h1]

lemma getD_foldl_upsert {κ σ : Type} [DecidableEq κ] (f : σ → σ) (d : σ) (ks : List κ)
    (s : List (κ × σ)) (q : κ) :
    (lookupA (ks.foldl (fun st k => upsert f d k st) s) q).getD d =
      f^[countOcc q ks] ((lookupA s q).getD d) := by
  induction ks generalizing s with
  | nil => simp [countOcc]
  | cons k ks ih =>
    by_cases h : q = k
    · subst h
      simp only [List.foldl_cons, ih, lookupA_upsert_self, Option.getD_some,
        countOcc_cons_self, Function.iterate_succ_apply]
    · rw [List.foldl_cons, ih, lookupA_upsert_ne f d k q s h,
        countOcc_cons_ne q k ks (fun hh => h hh.symm)]

lemma lookupA_foldl_upsert_notMem {κ σ : Type} [DecidableEq κ] (f : σ → σ) (d : σ)
    (ks : List κ) (s : List (κ × σ)) (q : κ) (h : q ∉ ks) :
    lookupA (ks.foldl (fun st k => upsert f d k st) s) q = lookupA s q := by
  induction ks generalizing s with
  | nil => rfl
  | cons k ks ih =>
    simp only [List.mem_cons, not_or] at h
    simp only [List.foldl_cons, ih _ h.2, lookupA_upsert_ne f d k q s h.1]

lemma mem_upsert_forall {κ σ : Type} [DecidableEq κ] {P : κ × σ → Prop} (f : σ → σ)
    (d : σ) (k : κ) (m : List (κ × σ)) (hm : ∀ e ∈ m, P e)
    (hf : ∀ x, P (k, x) → P (k, f x)) (hd : P (k, f d)) :
    ∀ e ∈ upsert f d k m, P e := by
  induction m with
  | nil =>
    intro e he
    simp only [upsert, List.mem_singleton] at he
    subst he; exact hd
  | cons ev t ih =>
    obtain ⟨k', v⟩ := ev
    intro e he
    by_cases h : k' = k
    · subst h
      simp only [upsert, if_pos rfl] at he
      rcases List.mem_cons.mp he with h1 | h1
      · subst h1
        exact hf v (hm (k', v) (List.mem_cons_self _ _))
      · exact hm e (List.mem_cons_of_mem _ h1)
    · simp only [upsert, if_neg h] at he
      rcases List.mem_cons.mp he with h1 | h1
      · subst h1
        exact hm (k', v) (List.mem_cons_self _ _)
      · exact ih (fun x hx => hm x (List.mem_cons_of_mem _ hx)) e h1

lemma foldl_flatMap {α β γ : Type} (g : α → List β) (f : γ → β → γ) (l : List α)
    (init : γ) :
    (l.flatMap g).foldl f init = l.foldl (fun s a => (g a).foldl f s) init := by
  induction l generalizing init with
  | nil => rfl
  | cons a t ih => simp [List.foldl_append, ih]

lemma mem_insertLe {α : Type} (le : α → α → Bool) (x a : α) (l : List α) :
    a ∈ insertLe le x l ↔ a = x ∨ a ∈ l := by
  induction l with
  | nil => simp [insertLe]
  | cons h t ih =>
    simp only [insertLe]
    by_cases hc : le x h = true
    · rw [if_pos hc]
      simp only [List.mem_cons]
      try tauto
    · rw [if_neg hc]
      simp only [List.mem_cons, ih]
      try tauto

lemma mem_insSort {α : Type} (le : α → α → Bool) (a : α) (l : List α) :
    a ∈ insSort le l ↔ a ∈ l := by
  induction l with
  | nil => simp [insSort]
  | cons x xs ih => simp [insSort, mem_insertLe, ih]

lemma pairwise_insertLe {α : Type} (le : α → α → Bool)
    (htot : ∀ a b, le a b = true ∨ le b a = true)
    (htrans : ∀ a b c, le a b = true → le b c = true → le a c = true)
    (x : α) : ∀ l : List α, List.Pairwise (fun a b => le a b = true) l →
      List.Pairwise (fun a b => le a b = true) (insertLe le x l)
  | [], _ => by simp [insertLe]
  | h :: t, hl => by
    rcases List.pairwise_cons.mp hl with ⟨hh, ht⟩
    have ih := pairwise_insertLe le htot htrans x t ht
    simp only [insertLe]
    by_cases hc : le x h = true
    · rw [if_pos hc]
      refine List.Pairwise.cons ?_ hl
      intro b hb
      rcases List.mem_cons.mp hb with hb | hb
      · subst hb; exact hc
      · exact htrans x h b hc (hh b hb)
    · rw [if_neg hc]
      refine List.Pairwise.cons ?_ ih
      intro b hb
      rcases (mem_insertLe le x b t).mp hb with hb | hb
      · subst hb
        rcases htot b h with hxh | hhx
        · exact absurd hxh hc
        · exact hhx
      · exact hh b hb

lemma pairwise_insSort {α : Type} (le : α → α → Bool)
    (htot : ∀ a b, le a b = true ∨ le b a = true)
    (htrans : ∀ a b c, le a b = true → le b c = true → le a c = true)
    (l : List α) : List.Pairwise (fun a b => le a b = true) (insSort le l) := by
  induction l with
  | nil => simp [insSort]
  | cons x xs ih => exact pairwise_insertLe le htot htrans x (insSort le xs) ih

lemma filter_insertLe_pos {α : Type} (le : α → α → Bool) (p : α → Bool) (x : α)
    (l : List α) (hx : p x = true) (hcl : ∀ h, p h = true → le x h = true) :
    (insertLe le x l).filter p = x :: l.filter p := by
  induction l with
  | nil => simp [insertLe, List.filter_cons, hx]
  | cons h t ih =>
    simp only [insertLe]
    by_cases hc : le x h = true
    · rw [if_pos hc]
      simp [List.filter_cons, hx]
    · have hph : p h = false := by
        cases hp : p h
        · rfl
        · exact absurd (hcl h hp) hc
      rw [if_neg hc]
      simp [List.filter_cons, hph, ih]

lemma filter_insertLe_neg {α : Type} (le : α → α → Bool) (p : α → Bool) (x : α)
    (l : List α) (hx : p x = false) :
    (insertLe le x l).filter p = l.filter p := by
  induction l with
  | nil => simp [insertLe, List.filter_cons, hx]
  | cons h t ih =>
    simp only [insertLe]
    by_cases hc : le x h = true
    · rw [if_pos hc]
      simp [List.filter_cons, hx]
    · rw [if_neg hc]
      simp [List.filter_cons, ih]

lemma filter_insSort {α : Type} (le : α → α → Bool) (p : α → Bool)
    (hp : ∀ a b, p a = true → p b = true → le a b = true) (l : List α) :
    (insSort le l).filter p = l.filter p := by
  induction l with
  | nil => simp [insSort]
  | cons x xs ih =>
    cases hx : p x
    · rw [insSort, filter_insertLe_neg le p x _ hx, ih, List.filter_cons, hx]
      simp
    · rw [insSort, filter_insertLe_pos le p x _ hx (fun h hh => hp x h hx hh), ih,
        List.filter_cons, hx]
      simp

lemma stepCveCwe_eq (s : CCState) (i : SnykIssue) :
    stepCveCwe s i =
      (cartPairs i).foldl (fun st k => upsert (bumpCveCwe i) emptyCveCweAcc k st) s := by
  simp only [stepCveCwe, cartPairs]
  rw [foldl_flatMap]
  simp only [List.foldl_map]

lemma bumpProj_pairs (i : SnykIssue) (d : ProjAcc) :
    (bumpProj i d).cve_cwe_pairs =
      ((cartPairs i).map mkLabel).foldl addSet d.cve_cwe_pairs := by
  simp only [bumpProj, cartPairs]
  rw [List.foldl_map, foldl_flatMap]
  simp only [List.foldl_map]

lemma cntOf_incr_self (m : List (String × Nat)) (k : String) :
    cntOf (incr m k) k = cntOf m k + 1 := by
  simp [cntOf, incr, lookupA_upsert_self]

lemma bumpCC_iter_len (i : SnykIssue) : ∀ (n : Nat) (d : CveCweAcc),
    ((bumpCveCwe i)^[n] d).issues.length = d.issues.length + n
  | 0, d => by simp
  | n + 1, d => by
    rw [Function.iterate_succ_apply, bumpCC_iter_len i n (bumpCveCwe i d)]
    simp only [bumpCveCwe, List.length_append, List.length_cons, List.length_nil]
    omega

lemma bumpCC_iter_sev (i : SnykIssue) : ∀ (n : Nat) (d : CveCweAcc),
    cntOf ((bumpCveCwe i)^[n] d).severity_counts i.issue_severity
      = cntOf d.severity_counts i.issue_severity + n
  | 0, d => by simp
  | n + 1, d => by
    rw [Function.iterate_succ_apply, bumpCC_iter_sev i n (bumpCveCwe i d)]
    simp only [bumpCveCwe]
    rw [cntOf_incr_self]
    omega

lemma mem_addSet (s : List String) (x a : String) :
    a ∈ addSet s x ↔ a ∈ s ∨ a = x := by
  by_cases h : x ∈ s
  · simp only [addSet, if_pos h]
    constructor
    · exact Or.inl
    · rintro (ha | ha)
      · exact ha
      · exact ha ▸ h
  · simp [addSet, if_neg h]

lemma mem_foldl_addSet (ls : List String) (s : List String) (a : String) :
    a ∈ ls.foldl addSet s ↔ a ∈ s ∨ a ∈ ls := by
  induction ls generalizing s with
  | nil => simp
  | cons x t ih =>
    simp only [List.foldl_cons, ih, mem_addSet, List.mem_cons]
    tauto

lemma ccGroupAt_step (s : CCState) (i : SnykIssue) (k : String × String) :
    ccGroupAt (stepCveCwe s i) k =
      (bumpCveCwe i)^[countOcc k (cartPairs i)] (ccGroupAt s k) := by
  simp only [ccGroupAt, stepCveCwe_eq]
  exact getD_foldl_upsert (bumpCveCwe i) emptyCveCweAcc (cartPairs i) s k

lemma pGroupAt_step (ps : PState) (i : SnykIssue) :
    pGroupAt (stepProject ps i) (projKey i) = bumpProj i (pGroupAt ps (projKey i)) := by
  simp only [pGroupAt, stepProject, lookupA_upsert_self, Option.getD_some]

/-- C1: a record is accumulated into exactly the Cartesian-product keys of its
effective CVE and CWE lists: in the cve-cwe strategy each such group gets the
record once (issue count and its severity count both up by one) and no other key
changes, and in the project strategy exactly the labels cve + cwe of those pairs
become members of its project group, no other project group changing. -/
theorem claim_C1 (s : CCState) (ps : PState) (i : SnykIssue)
    (h : (cartPairs i).Nodup) :
    (∀ k ∈ cartPairs i,
      (ccGroupAt (stepCveCwe s i) k).issues.length
          = (ccGroupAt s k).issues.length + 1 ∧
      cntOf (ccGroupAt (stepCveCwe s i) k).severity_counts i.issue_severity
          = cntOf (ccGroupAt s k).severity_counts i.issue_severity + 1) ∧
    (∀ k, k ∉ cartPairs i → lookupA (stepCveCwe s i) k = lookupA s k) ∧
    (∀ lab, lab ∈ (pGroupAt (stepProject ps i) (projKey i)).cve_cwe_pairs ↔
      lab ∈ (pGroupAt ps (projKey i)).cve_cwe_pairs ∨
        lab ∈ (cartPairs i).map mkLabel) ∧
    (∀ k, k ≠ projKey i → lookupA (stepProject ps i) k = lookupA ps k) := by
  refine ⟨?_, ?_, ?_, ?_⟩
  · intro k hk
    have hcount : countOcc k (cartPairs i) = 1 := countOcc_eq_one_of_mem k (cartPairs i) h hk
    rw [ccGroupAt_step, hcount]
    exact ⟨bumpCC_iter_len i 1 _, bumpCC_iter_sev i 1 _⟩
  · intro k hk
    rw [stepCveCwe_eq]
    exact lookupA_foldl_upsert_notMem _ _ _ _ _ hk
  · intro lab
    rw [pGroupAt_step, bumpProj_pairs]
    exact mem_foldl_addSet _ _ _
  · intro k hk
    exact lookupA_upsert_ne _ _ _ _ _ hk

/-- Witness for C1 at a concrete record with two CVEs and one CWE over the empty
accumulation states. -/
theorem claim_C1_witness :
    (ccGroupAt (stepCveCwe [] wIssue) ("CVE-1", "CWE-A")).issues.length
        = (ccGroupAt ([] : CCState) ("CVE-1", "CWE-A")).issues.length + 1 ∧
    ("CVE-1 + CWE-A") ∈ (pGroupAt (stepProject [] wIssue) (projKey wIssue)).cve_cwe_pairs :=
  ⟨((claim_C1 [] [] wIssue (by decide)).1 ("CVE-1", "CWE-A") (by decide)).1,
   ((claim_C1 [] [] wIssue (by decide)).2.2.1 ("CVE-1 + CWE-A")).mpr
     (Or.inr (by decide))⟩

lemma foldl_fixInc (issues : List SnykIssue) (n : Nat) :
    issues.foldl (fun m i => m + fixInc i) n =
      n + (issues.filter (fun i => decide (i.computed_fixability = "Fixable"))).length := by
  induction issues generalizing n with
  | nil => simp
  | cons i t ih =>
    simp only [List.foldl_cons, List.filter_cons]
    by_cases h : i.computed_fixability = "Fixable"
    · rw [show fixInc i = 1 from by simp [fixInc, h], ih]
      simp [h]
      omega
    · rw [show fixInc i = 0 from by simp [fixInc, h], ih]
      simp [h]

/-- C3: the global fixable_count of prepare_data equals the number of records
whose computed_fixability is exactly the string Fixable. -/
theorem claim_C3 (issues : List SnykIssue) (gb : String) :
    (prepare_data issues gb).fixable_count =
      (issues.filter (fun i => decide (i.computed_fixability = "Fixable"))).length := by
  simp only [prepare_data]
  rw [foldl_fixInc issues 0]
  omega

/-- C8: on an empty record list prepare_data yields zero totals, an empty
severity histogram, zero fixable count and no groups, for any strategy string. -/
theorem claim_C8 (gb : String) :
    prepare_data [] gb =
      { total_issues := 0, total_groups := 0, severity_counts := [],
        fixable_count := 0, groups := [], group_by := gb } := by
  by_cases h : gb = "project"
  · subst h; rfl
  · simp only [prepare_data, if_neg h]
    rfl

lemma ccCountGe_total : ∀ a b, ccCountGe a b = true ∨ ccCountGe b a = true := by
  intro a b
  simp only [ccCountGe, decide_eq_true_eq]
  omega

lemma ccCountGe_trans : ∀ a b c, ccCountGe a b = true → ccCountGe b c = true →
    ccCountGe a c = true := by
  intro a b c
  simp only [ccCountGe, decide_eq_true_eq]
  omega

lemma pCountGe_total : ∀ a b, pCountGe a b = true ∨ pCountGe b a = true := by
  intro a b
  simp only [pCountGe, decide_eq_true_eq]
  omega

lemma pCountGe_trans : ∀ a b c, pCountGe a b = true → pCountGe b c = true →
    pCountGe a c = true := by
  intro a b c
  simp only [pCountGe, decide_eq_true_eq]
  omega

lemma keys_upsert {κ σ : Type} [DecidableEq κ] (f : σ → σ) (d : σ) (k : κ)
    (m : List (κ × σ)) :
    (upsert f d k m).map Prod.fst = seenStep (m.map Prod.fst) k := by
  induction m with
  | nil => simp [upsert, seenStep]
  | cons e t ih =>
    obtain ⟨k', v⟩ := e
    by_cases h : k' = k
    · subst h
      simp [upsert, seenStep]
    · have hne : ¬ (k = k') := fun hh => h hh.symm
      simp only [upsert, if_neg h, List.map_cons, ih, seenStep, List.mem_cons, hne,
        false_or]
      by_cases hm : k ∈ t.map Prod.fst
      · simp [hm]
      · simp [hm]

lemma keys_foldl_upsert {κ σ : Type} [DecidableEq κ] (f : σ → σ) (d : σ) (ks : List κ)
    (s : List (κ × σ)) :
    ((ks.foldl (fun st k => upsert f d k st) s).map Prod.fst) =
      ks.foldl seenStep (s.map Prod.fst) := by
  induction ks generalizing s with
  | nil => rfl
  | cons k ks ih => simp only [List.foldl_cons, ih, keys_upsert]

lemma keys_accumulateCC_aux (issues : List SnykIssue) : ∀ (s : CCState),
    ((issues.foldl stepCveCwe s).map Prod.fst) =
      (issues.flatMap cartPairs).foldl seenStep (s.map Prod.fst) := by
  induction issues with
  | nil => intro s; rfl
  | cons i t ih =>
    intro s
    rw [List.foldl_cons, ih (stepCveCwe s i), List.flatMap_cons, List.foldl_append]
    rw [stepCveCwe_eq, keys_foldl_upsert]

lemma keys_accumulateCC (issues : List SnykIssue) :
    (accumulateCC issues).map Prod.fst = firstOccs (issues.flatMap cartPairs) := by
  rw [accumulateCC, keys_accumulateCC_aux issues [], firstOccs]
  rfl

lemma keys_accumulateP_aux (issues : List SnykIssue) : ∀ (s : PState),
    ((issues.foldl stepProject s).map Prod.fst) =
      (issues.map projKey).foldl seenStep (s.map Prod.fst) := by
  induction issues with
  | nil => intro s; rfl
  | cons i t ih =>
    intro s
    rw [List.foldl_cons, ih (stepProject s i), List.map_cons, List.foldl_cons]
    rw [stepProject, keys_upsert]

lemma keys_accumulateP (issues : List SnykIssue) :
    (accumulateP issues).map Prod.fst = firstOccs (issues.map projKey) := by
  rw [accumulateP, keys_accumulateP_aux issues [], firstOccs]
  rfl

lemma ccPairwise (issues : List SnykIssue) :
    List.Pairwise (fun a b => b.total_issues ≤ a.total_issues)
      (prepare_data_cve_cwe issues) := by
  rw [prepare_data_cve_cwe]
  refine List.Pairwise.map mkCveCweGroup ?_
    (pairwise_insSort ccCountGe ccCountGe_total ccCountGe_trans _)
  intro a b hab
  simp only [ccCountGe, decide_eq_true_eq] at hab
  simpa [mkCveCweGroup] using hab

lemma pPairwise (issues : List SnykIssue) :
    List.Pairwise (fun a b => b.total_issues ≤ a.total_issues)
      (prepare_data_project issues) := by
  rw [prepare_data_project]
  refine List.Pairwise.map mkProjectGroup ?_
    (pairwise_insSort pCountGe pCountGe_total pCountGe_trans _)
  intro a b hab
  simp only [pCountGe, decide_eq_true_eq] at hab
  simpa [mkProjectGroup] using hab

lemma ccFilterStable (issues : List SnykIssue) (c : Nat) :
    ((prepare_data_cve_cwe issues).filter
        (fun g => decide (g.total_issues = c))).map (fun g => (g.cve, g.cwe)) =
      ((accumulateCC issues).filter
        (fun kd => decide (kd.2.issues.length = c))).map Prod.fst := by
  rw [prepare_data_cve_cwe, List.filter_map]
  have h1 : ((fun g => decide (g.total_issues = c)) ∘ mkCveCweGroup) =
      (fun kd : (String × String) × CveCweAcc => decide (kd.2.issues.length = c)) := by
    funext kd
    simp [mkCveCweGroup]
  rw [h1, filter_insSort ccCountGe _ ?_ (accumulateCC issues), List.map_map]
  · congr 1
  · intro a b ha hb
    simp only [decide_eq_true_eq] at ha hb
    simp only [ccCountGe, ha, hb, decide_eq_true_eq]
    omega

lemma pFilterStable (issues : List SnykIssue) (c : Nat) :
    ((prepare_data_project issues).filter
        (fun g => decide (g.total_issues = c))).map
          (fun g => (g.project_name, g.project_url)) =
      ((accumulateP issues).filter
        (fun kd => decide (kd.2.issues.length = c))).map Prod.fst := by
  rw [prepare_data_project, List.filter_map]
  have h1 : ((fun g => decide (g.total_issues = c)) ∘ mkProjectGroup) =
      (fun kd : (String × String) × ProjAcc => decide (kd.2.issues.length = c)) := by
    funext kd
    simp [mkProjectGroup]
  rw [h1, filter_insSort pCountGe _ ?_ (accumulateP issues), List.map_map]
  · congr 1
  · intro a b ha hb
    simp only [decide_eq_true_eq] at ha hb
    simp only [pCountGe, ha, hb, decide_eq_true_eq]
    omega

/-- C2: for either strategy the output group sequence is sorted by descending
member-issue count, and the sort is stable with respect to key insertion order:
restricted to any fixed count, the output keys coincide with the accumulated
keys, whose order is the first-encounter order of the keys in the input. -/
theorem claim_C2 (issues : List SnykIssue) :
    List.Pairwise (fun a b => b.total_issues ≤ a.total_issues)
      (prepare_data_cve_cwe issues) ∧
    List.Pairwise (fun a b => b.total_issues ≤ a.total_issues)
      (prepare_data_project issues) ∧
    (∀ gb : String, List.Pairwise
      (fun a b => GroupDict.total_issues b ≤ GroupDict.total_issues a)
      (prepare_data issues gb).groups) ∧
    (∀ c : Nat,
      ((prepare_data_cve_cwe issues).filter
          (fun g => decide (g.total_issues = c))).map (fun g => (g.cve, g.cwe)) =
        ((accumulateCC issues).filter
          (fun kd => decide (kd.2.issues.length = c))).map Prod.fst) ∧
    (∀ c : Nat,
      ((prepare_data_project issues).filter
          (fun g => decide (g.total_issues = c))).map
            (fun g => (g.project_name, g.project_url)) =
        ((accumulateP issues).filter
          (fun kd => decide (kd.2.issues.length = c))).map Prod.fst) ∧
    (accumulateCC issues).map Prod.fst = firstOccs (issues.flatMap cartPairs) ∧
    (accumulateP issues).map Prod.fst = firstOccs (issues.map projKey) := by
  refine ⟨ccPairwise issues, pPairwise issues, ?_, ccFilterStable issues,
    pFilterStable issues, keys_accumulateCC issues, keys_accumulateP issues⟩
  intro gb
  simp only [prepare_data]
  by_cases h : gb = "project"
  · rw [if_pos h]
    refine List.Pairwise.map GroupDict.project ?_ (pPairwise issues)
    intro a b hab
    exact hab
  · rw [if_neg h]
    refine List.Pairwise.map GroupDict.cveCwe ?_ (ccPairwise issues)
    intro a b hab
    exact hab

lemma sumVals_incr (m : List (String × Nat)) (k : String) :
    sumVals (incr m k) = sumVals m + 1 := by
  induction m with
  | nil => simp [sumVals, incr, upsert]
  | cons e t ih =>
    obtain ⟨k', v⟩ := e
    by_cases h : k' = k
    · subst h
      simp [sumVals, incr, upsert]
      omega
    · simp only [incr, upsert, if_neg h, sumVals, List.map_cons, List.sum_cons] at *
      omega

lemma fixInc_le_one (i : SnykIssue) : fixInc i ≤ 1 := by
  unfold fixInc
  split <;> omega

lemma stepCC_inv {P : CveCweAcc → Prop} (i : SnykIssue)
    (hPi : ∀ x, P x → P (bumpCveCwe i x)) (hP0 : P (bumpCveCwe i emptyCveCweAcc))
    (s : CCState) (hs : ∀ kd ∈ s, P kd.2) : ∀ kd ∈ stepCveCwe s i, P kd.2 := by
  rw [stepCveCwe_eq]
  generalize cartPairs i = ks
  induction ks generalizing s with
  | nil => simpa using hs
  | cons k ks ih =>
    rw [List.foldl_cons]
    exact ih _ (mem_upsert_forall (P := fun e => P e.2) _ _ _ _ hs
      (fun x hx => hPi x hx) hP0)

lemma foldCC_inv {P : CveCweAcc → Prop} {Q : SnykIssue → Prop}
    (hP : ∀ i, Q i → ∀ x, P x → P (bumpCveCwe i x))
    (hP0 : ∀ i, Q i → P (bumpCveCwe i emptyCveCweAcc)) :
    ∀ (issues : List SnykIssue), (∀ i ∈ issues, Q i) →
      ∀ (s : CCState), (∀ kd ∈ s, P kd.2) →
      ∀ kd ∈ issues.foldl stepCveCwe s, P kd.2
  | [], _, s, hs => by simpa using hs
  | i :: t, hQ, s, hs => by
    rw [List.foldl_cons]
    exact foldCC_inv hP hP0 t (fun j hj => hQ j (List.mem_cons_of_mem _ hj))
      (stepCveCwe s i)
      (stepCC_inv i (hP i (hQ i (List.mem_cons_self _ _)))
        (hP0 i (hQ i (List.mem_cons_self _ _))) s hs)

lemma foldP_inv {P : ProjAcc → Prop} {Q : SnykIssue → Prop}
    (hP : ∀ i, Q i → ∀ x, P x → P (bumpProj i x))
    (hP0 : ∀ i, Q i → P (bumpProj i emptyProjAcc)) :
    ∀ (issues : List SnykIssue), (∀ i ∈ issues, Q i) →
      ∀ (s : PState), (∀ kd ∈ s, P kd.2) →
      ∀ kd ∈ issues.foldl stepProject s, P kd.2
  | [], _, s, hs => by simpa using hs
  | i :: t, hQ, s, hs => by
    rw [List.foldl_cons]
    refine foldP_inv hP hP0 t (fun j hj => hQ j (List.mem_cons_of_mem _ hj))
      (stepProject s i) ?_
    exact mem_upsert_forall (P := fun e => P e.2) _ _ _ _ hs
      (fun x hx => hP i (hQ i (List.mem_cons_self _ _)) x hx)
      (hP0 i (hQ i (List.mem_cons_self _ _)))

lemma accCC_basic_inv (issues : List SnykIssue) :
    ∀ kd ∈ accumulateCC issues,
      kd.2.issues.length = sumVals kd.2.severity_counts ∧
      kd.2.fixable_count ≤ kd.2.issues.length ∧ 1 ≤ kd.2.issues.length := by
  rw [accumulateCC]
  refine foldCC_inv (Q := fun _ => True)
    (P := fun d => d.issues.length = sumVals d.severity_counts ∧
      d.fixable_count ≤ d.issues.length ∧ 1 ≤ d.issues.length)
    ?_ ?_ issues (fun _ _ => trivial) [] (by simp)
  · intro i _ x hx
    obtain ⟨h1, h2, h3⟩ := hx
    refine ⟨?_, ?_, ?_⟩
    · simp only [bumpCveCwe, List.length_append, List.length_cons, List.length_nil,
        sumVals_incr]
      omega
    · have := fixInc_le_one i
      simp only [bumpCveCwe, List.length_append, List.length_cons, List.length_nil]
      omega
    · simp only [bumpCveCwe, List.length_append, List.length_cons, List.length_nil]
      omega
  · intro i _
    have := fixInc_le_one i
    refine ⟨?_, ?_, ?_⟩
    · simp [bumpCveCwe, emptyCveCweAcc, sumVals_incr, sumVals, incr, upsert]
    · simp only [bumpCveCwe, emptyCveCweAcc, List.nil_append, List.length_cons,
        List.length_nil]
      omega
    · simp [bumpCveCwe, emptyCveCweAcc]

lemma accP_basic_inv (issues : List SnykIssue) :
    ∀ kd ∈ accumulateP issues,
      kd.2.issues.length = sumVals kd.2.severity_counts ∧
      kd.2.fixable_count ≤ kd.2.issues.length ∧ 1 ≤ kd.2.issues.length := by
  rw [accumulateP]
  refine foldP_inv (Q := fun _ => True)
    (P := fun d => d.issues.length = sumVals d.severity_counts ∧
      d.fixable_count ≤ d.issues.length ∧ 1 ≤ d.issues.length)
    ?_ ?_ issues (fun _ _ => trivial) [] (by simp)
  · intro i _ x hx
    obtain ⟨h1, h2, h3⟩ := hx
    refine ⟨?_, ?_, ?_⟩
    · simp only [bumpProj, List.length_append, List.length_cons, List.length_nil,
        sumVals_incr]
      omega
    · have := fixInc_le_one i
      simp only [bumpProj, List.length_append, List.length_cons, List.length_nil]
      omega
    · simp only [bumpProj, List.length_append, List.length_cons, List.length_nil]
      omega
  · intro i _
    have := fixInc_le_one i
    refine ⟨?_, ?_, ?_⟩
    · simp [bumpProj, emptyProjAcc, sumVals_incr, sumVals, incr, upsert]
    · simp only [bumpProj, emptyProjAcc, List.nil_append, List.length_cons,
        List.length_nil]
      omega
    · simp [bumpProj, emptyProjAcc]

/-- C10: every emitted group of either strategy has a severity histogram summing
to its total_issues, a fixable_count bounded by its total_issues, and at least
one member issue. -/
theorem claim_C10 (issues : List SnykIssue) (gb : String) (g : GroupDict)
    (hg : g ∈ (prepare_data issues gb).groups) :
    g.total_issues = sumVals g.severity_counts ∧
    g.fixable_count ≤ g.total_issues ∧ 1 ≤ g.total_issues := by
  simp only [prepare_data] at hg
  by_cases h : gb = "project"
  · rw [if_pos h] at hg
    obtain ⟨pg, hpg, rfl⟩ := List.mem_map.mp hg
    rw [prepare_data_project] at hpg
    obtain ⟨kd, hkd, rfl⟩ := List.mem_map.mp hpg
    have hmem := (mem_insSort pCountGe kd (accumulateP issues)).mp hkd
    obtain ⟨h1, h2, h3⟩ := accP_basic_inv issues kd hmem
    exact ⟨h1, h2, h3⟩
  · rw [if_neg h] at hg
    obtain ⟨cg, hcg, rfl⟩ := List.mem_map.mp hg
    rw [prepare_data_cve_cwe] at hcg
    obtain ⟨kd, hkd, rfl⟩ := List.mem_map.mp hcg
    have hmem := (mem_insSort ccCountGe kd (accumulateCC issues)).mp hkd
    obtain ⟨h1, h2, h3⟩ := accCC_basic_inv issues kd hmem
    exact ⟨h1, h2, h3⟩

/-- Witness for C10 at a concrete one-record input under the cve-cwe strategy. -/
theorem claim_C10_witness :
    GroupDict.cveCwe gW ∈ (prepare_data [wIssue] "cve-cwe").groups ∧
    ((GroupDict.cveCwe gW).total_issues = sumVals (GroupDict.cveCwe gW).severity_counts ∧
     (GroupDict.cveCwe gW).fixable_count ≤ (GroupDict.cveCwe gW).total_issues ∧
     1 ≤ (GroupDict.cveCwe gW).total_issues) :=
  ⟨by decide, claim_C10 [wIssue] "cve-cwe" (GroupDict.cveCwe gW) (by decide)⟩

lemma lastWrites_append_one (ps : List (String × String)) (n u : String) :
    lastWrites (ps ++ [(n, u)]) = setAssoc (lastWrites ps) n u := by
  simp [lastWrites, List.foldl_append]

lemma accCC_projects_inv (issues : List SnykIssue) :
    ∀ kd ∈ accumulateCC issues,
      kd.2.projects =
        lastWrites (kd.2.issues.map (fun i => (i.project_name, i.project_url))) ∧
      ∀ i ∈ kd.2.issues, i ∈ issues := by
  rw [accumulateCC]
  refine foldCC_inv (Q := fun i => i ∈ issues)
    (P := fun d => d.projects =
        lastWrites (d.issues.map (fun i => (i.project_name, i.project_url))) ∧
      ∀ i ∈ d.issues, i ∈ issues)
    ?_ ?_ issues (fun _ h => h) [] (by simp)
  · intro i hQ x hx
    obtain ⟨h1, h2⟩ := hx
    constructor
    · simp only [bumpCveCwe, List.map_append, List.map_cons, List.map_nil,
        lastWrites_append_one, h1, setAssoc]
    · intro j hj
      rcases List.mem_append.mp hj with hj | hj
      · exact h2 j hj
      · rw [List.mem_singleton.mp hj]
        exact hQ
  · intro i hQ
    constructor
    · simp [bumpCveCwe, emptyCveCweAcc, lastWrites, setAssoc]
    · intro j hj
      simp only [bumpCveCwe, emptyCveCweAcc, List.nil_append,
        List.mem_singleton] at hj
      rw [hj]
      exact hQ

/-- Counterexample to C9 as stated: two member records of the same (cve, cwe)
group share the project name P but carry the distinct URLs u1 and u2; the group
ends with a single (P, u2) pair instead of the two distinct claimed pairs,
because the projects dict is keyed by name alone and the last write wins. -/
theorem claim_C9_cex :
    cexIssue1.project_name = cexIssue2.project_name ∧
    cexIssue1.project_url ≠ cexIssue2.project_url ∧
    (prepare_data_cve_cwe [cexIssue1, cexIssue2]).map
        (fun g => (g.total_issues, g.projects)) = [(2, [("P", "u2")])] := by
  refine ⟨rfl, by decide, by decide⟩

/-- C9 amended: the projects attribute of a cve-cwe group is the sorted
name-keyed last-write-wins mapping of the (project name, project URL) pairs of
the records accumulated into the group: one entry per distinct member project
name, carrying the URL of the last accumulated member with that name, so two
members sharing a name with different URLs yield a single pair. -/
theorem claim_C9 (issues : List SnykIssue) (g : CveCweGroup)
    (hg : g ∈ prepare_data_cve_cwe issues) :
    ∃ ms : List SnykIssue, (∀ i ∈ ms, i ∈ issues) ∧ g.total_issues = ms.length ∧
      g.projects = insSort pairLe
        (lastWrites (ms.map (fun i => (i.project_name, i.project_url)))) := by
  rw [prepare_data_cve_cwe] at hg
  obtain ⟨kd, hkd, rfl⟩ := List.mem_map.mp hg
  have hmem := (mem_insSort ccCountGe kd (accumulateCC issues)).mp hkd
  obtain ⟨h1, h2⟩ := accCC_projects_inv issues kd hmem
  exact ⟨kd.2.issues, h2, rfl, by rw [mkCveCweGroup, h1]⟩

/-- Witness for the amended C9 at a concrete one-record input. -/
theorem claim_C9_witness :
    ∃ ms : List SnykIssue, (∀ i ∈ ms, i ∈ [wIssue]) ∧ gW.total_issues = ms.length ∧
      gW.projects = insSort pairLe
        (lastWrites (ms.map (fun i => (i.project_name, i.project_url)))) :=
  claim_C9 [wIssue] gW (by decide)

/-- C6: the timestamp coercion maps None and the empty string to None; otherwise
the fraction format is tried first, then the plain format, succeeding exactly
when one of the two matches, and failing with an error naming the value when
neither does. -/
theorem claim_C6 (s : String) (h : s ≠ "") :
    parse_datetime none = .ok none ∧
    parse_datetime (some "") = .ok none ∧
    (∀ d, strptime_micro s = some d → parse_datetime (some s) = .ok (some d)) ∧
    (∀ d, strptime_micro s = none → strptime_sec s = some d →
      parse_datetime (some s) = .ok (some d)) ∧
    (strptime_micro s = none → strptime_sec s = none →
      parse_datetime (some s) = .error ("Unable to parse datetime: " ++ s)) ∧
    ((∃ d, parse_datetime (some s) = .ok (some d)) ↔
      strptime_micro s ≠ none ∨ strptime_sec s ≠ none) := by
  refine ⟨rfl, rfl, ?_, ?_, ?_, ?_⟩
  · intro d hd
    simp [parse_datetime, h, hd]
  · intro d h1 h2
    simp [parse_datetime, h, h1, h2]
  · intro h1 h2
    simp [parse_datetime, h, h1, h2]
  · constructor
    · rintro ⟨d, hd⟩
      by_contra hcon
      push_neg at hcon
      obtain ⟨h1, h2⟩ := hcon
      simp [parse_datetime, h, h1, h2] at hd
    · intro hor
      cases o1 : strptime_micro s with
      | some d => exact ⟨d, by simp [parse_datetime, h, o1]⟩
      | none =>
        cases o2 : strptime_sec s with
        | some d => exact ⟨d, by simp [parse_datetime, h, o1, o2]⟩
        | none =>
          rcases hor with h1 | h1
          · exact absurd o1 h1
          · exact absurd o2 h1

/-- Witness for C6: a value matching the second format parses, and an
unparsable value produces the error naming it. -/
theorem claim_C6_witness :
    ("2021-03-04 05:06:07" : String) ≠ "" ∧
    (∃ d, parse_datetime (some ("2021-03-04 05:06:07")) = .ok (some d)) ∧
    parse_datetime (some ("bogus")) =
      .error ("Unable to parse datetime: " ++ "bogus") :=
  ⟨by decide,
   ((claim_C6 ("2021-03-04 05:06:07") (by decide)).2.2.2.2.2).mpr
     (Or.inr (by decide)),
   (claim_C6 ("bogus") (by decide)).2.2.2.2.1 (by rfl) (by rfl)⟩

lemma readLoop_eq (rows : List Row) : ∀ (n : Nat) (acc : List SnykIssue)
    (diags : List (Nat × String)),
    readLoop rows n acc diags =
      (acc ++ rows.filterMap (fun r => (validateRow r).toOption),
       diags ++ ((List.range' n rows.length).zip rows).filterMap
         (fun p => match validateRow p.2 with
           | .ok _ => none
           | .error e => some (p.1, e))) := by
  induction rows with
  | nil => intro n acc diags; simp [readLoop]
  | cons r rs ih =>
    intro n acc diags
    rw [readLoop]
    cases hv : validateRow r with
    | ok i =>
      dsimp only
      rw [ih]
      simp [List.range'_succ, hv, Except.toOption]
    | error e =>
      dsimp only
      rw [ih]
      simp [List.range'_succ, hv, Except.toOption]

/-- C7: ingestion returns exactly the successfully validating rows in input
order; each failing row is skipped and reported once to the diagnostic stream
with its row number counted from 2, and later valid rows still appear. -/
theorem claim_C7 (rows : List Row) :
    (read_csv_to_models rows).1 =
      rows.filterMap (fun r => (validateRow r).toOption) ∧
    (read_csv_to_models rows).2 =
      ((List.range' 2 rows.length).zip rows).filterMap
        (fun p => match validateRow p.2 with
          | .ok _ => none
          | .error e => some (p.1, e)) := by
  rw [read_csv_to_models, readLoop_eq]
  simp

/-- C5: the list-field coercion is a total function: a string that does not
parse as json yields the empty list, a string parsing to a non-list json value
yields the empty list, a list passes through unchanged, and None or any other
value yields the empty list. -/
theorem claim_C5 :
    (∀ s, json_loads s = none → parse_json_array (PyValue.str s) = []) ∧
    (∀ s j, json_loads s = some j → (∀ xs, j ≠ Json.arr xs) →
      parse_json_array (PyValue.str s) = []) ∧
    (∀ xs, parse_json_array (PyValue.list xs) = xs) ∧
    parse_json_array PyValue.pyNone = [] ∧
    parse_json_array PyValue.other = [] := by
  refine ⟨?_, ?_, fun xs => rfl, rfl, rfl⟩
  · intro s hs
    simp [parse_json_array, hs]
  · intro s j hj hne
    cases j with
    | arr xs => exact absurd rfl (hne xs)
    | null => simp [parse_json_array, hj]
    | bool b => simp [parse_json_array, hj]
    | num l => simp [parse_json_array, hj]
    | str t => simp [parse_json_array, hj]
    | obj ms => simp [parse_json_array, hj]

/-- Witness for C5: the malformed cell not-json and the non-list json value 42
both coerce to the empty list. -/
theorem claim_C5_witness :
    parse_json_array (PyValue.str ("not-json")) = [] ∧
    parse_json_array (PyValue.str ("42")) = [] :=
  ⟨claim_C5.1 ("not-json") (by rfl),
   claim_C5.2.1 ("42") (Json.num ("42")) (by rfl) (fun xs hx => Json.noConfusion hx)⟩

lemma hexVal_toHexDigit : ∀ n, n < 16 → hexVal (toHexDigit n) = some n := by decide


lemma parseStrBody_u_generic (f x y z w : Nat) (hx : x < 16) (hy : y < 16)
    (hz : z < 16) (hw : w < 16)
    (hns : ¬ (0xd800 ≤ 4096 * x + 256 * y + 16 * z + w ∧
      4096 * x + 256 * y + 16 * z + w < 0xe000)) (rest : List Char) :
    parseStrBody (f + 1)
        ('\\' :: 'u' :: toHexDigit x :: toHexDigit y :: toHexDigit z ::
          toHexDigit w :: rest) =
      consMap (Char.ofNat (4096 * x + 256 * y + 16 * z + w)) (parseStrBody f rest) := by
  rw [parseStrBody]
  simp only [hexVal_toHexDigit x hx, hexVal_toHexDigit y hy, hexVal_toHexDigit z hz,
    hexVal_toHexDigit w hw, Char.reduceEq, reduceIte]
  rw [if_neg (by omega), if_neg (by omega)]

lemma parseStrBody_u_surrogate (f x y z w x2 y2 z2 w2 : Nat) (hx : x < 16)
    (hy : y < 16) (hz : z < 16) (hw : w < 16) (hx2 : x2 < 16) (hy2 : y2 < 16)
    (hz2 : z2 < 16) (hw2 : w2 < 16)
    (hhi : 0xd800 ≤ 4096 * x + 256 * y + 16 * z + w ∧
      4096 * x + 256 * y + 16 * z + w < 0xdc00)
    (hlo : 0xdc00 ≤ 4096 * x2 + 256 * y2 + 16 * z2 + w2 ∧
      4096 * x2 + 256 * y2 + 16 * z2 + w2 < 0xe000) (rest : List Char) :
    parseStrBody (f + 1)
        ('\\' :: 'u' :: toHexDigit x :: toHexDigit y :: toHexDigit z ::
          toHexDigit w :: '\\' :: 'u' :: toHexDigit x2 :: toHexDigit y2 ::
          toHexDigit z2 :: toHexDigit w2 :: rest) =
      consMap (Char.ofNat (0x10000 +
          (4096 * x + 256 * y + 16 * z + w - 0xd800) * 0x400 +
          (4096 * x2 + 256 * y2 + 16 * z2 + w2 - 0xdc00)))
        (parseStrBody f rest) := by
  rw [parseStrBody]
  simp only [hexVal_toHexDigit x hx, hexVal_toHexDigit y hy, hexVal_toHexDigit z hz,
    hexVal_toHexDigit w hw, hexVal_toHexDigit x2 hx2, hexVal_toHexDigit y2 hy2,
    hexVal_toHexDigit z2 hz2, hexVal_toHexDigit w2 hw2, Char.reduceEq, reduceIte]
  rw [if_pos hhi]
  simp only [Char.reduceEq, and_self, reduceIte, if_true]
  rw [if_pos hlo]

lemma parseStrBody_escChar (c : Char) (f : Nat) (rest : List Char) :
    parseStrBody (f + 1) (escChar c ++ rest) = consMap c (parseStrBody f rest) := by
  have hval : c.toNat.isValidChar := c.valid
  by_cases h1 : c = '"'
  · subst h1; rfl
  by_cases h2 : c = '\\'
  · subst h2; rfl
  by_cases h3 : 0x20 ≤ c.toNat ∧ c.toNat ≤ 0x7e
  · have e : escChar c = [c] := by
      simp only [escChar, if_neg h1, if_neg h2, if_pos h3]
    rw [e, List.cons_append, List.nil_append, parseStrBody.eq_def]
    dsimp only
    rw [if_neg h1, if_neg h2, if_neg (by omega)]
  by_cases h4 : c = '\x08'
  · subst h4; rfl
  by_cases h5 : c = '\x09'
  · subst h5; rfl
  by_cases h6 : c = '\x0a'
  · subst h6; rfl
  by_cases h7 : c = '\x0c'
  · subst h7; rfl
  by_cases h8 : c = '\x0d'
  · subst h8; rfl
  by_cases h9 : c.toNat < 0x10000
  · have e : escChar c = uEscape c.toNat := by
      simp only [escChar, if_neg h1, if_neg h2, if_neg h3, if_neg h4, if_neg h5,
        if_neg h6, if_neg h7, if_neg h8, if_pos h9]
    have hns : ¬ (0xd800 ≤ 4096 * (c.toNat / 4096) + 256 * (c.toNat / 256 % 16) +
        16 * (c.toNat / 16 % 16) + c.toNat % 16 ∧
        4096 * (c.toNat / 4096) + 256 * (c.toNat / 256 % 16) +
        16 * (c.toNat / 16 % 16) + c.toNat % 16 < 0xe000) := by
      rcases hval with hv | hv <;> omega
    rw [e, uEscape, List.cons_append, List.cons_append, List.cons_append,
      List.cons_append, List.cons_append, List.cons_append, List.nil_append]
    rw [parseStrBody_u_generic f _ _ _ _ (by omega) (by omega) (by omega) (by omega)
      hns rest]
    have hS : 4096 * (c.toNat / 4096) + 256 * (c.toNat / 256 % 16) +
        16 * (c.toNat / 16 % 16) + c.toNat % 16 = c.toNat := by omega
    rw [hS, Char.ofNat_toNat]
  · have hv2 : 0xdfff < c.toNat ∧ c.toNat < 0x110000 := by
      rcases hval with hv | hv
      · omega
      · exact hv
    have e : escChar c =
        uEscape (0xd800 + (c.toNat - 0x10000) / 0x400) ++
        uEscape (0xdc00 + (c.toNat - 0x10000) % 0x400) := by
      simp only [escChar, if_neg h1, if_neg h2, if_neg h3, if_neg h4, if_neg h5,
        if_neg h6, if_neg h7, if_neg h8, if_neg h9]
    rw [e, uEscape, uEscape]
    simp only [List.cons_append, List.nil_append]
    rw [parseStrBody_u_surrogate f _ _ _ _ _ _ _ _ (by omega) (by omega) (by omega)
      (by omega) (by omega) (by omega) (by omega) (by omega)
      (by constructor <;> omega) (by constructor <;> omega) rest]
    have hS : 0x10000 +
        (4096 * ((0xd800 + (c.toNat - 0x10000) / 0x400) / 4096) +
          256 * ((0xd800 + (c.toNat - 0x10000) / 0x400) / 256 % 16) +
          16 * ((0xd800 + (c.toNat - 0x10000) / 0x400) / 16 % 16) +
          (0xd800 + (c.toNat - 0x10000) / 0x400) % 16 - 0xd800) * 0x400 +
        (4096 * ((0xdc00 + (c.toNat - 0x10000) % 0x400) / 4096) +
          256 * ((0xdc00 + (c.toNat - 0x10000) % 0x400) / 256 % 16) +
          16 * ((0xdc00 + (c.toNat - 0x10000) % 0x400) / 16 % 16) +
          (0xdc00 + (c.toNat - 0x10000) % 0x400) % 16 - 0xdc00) = c.toNat := by
      omega
    rw [hS, Char.ofNat_toNat]

lemma parseStrBody_escList (cs : List Char) (f : Nat) (rest : List Char) :
    parseStrBody (cs.length + (f + 1)) (cs.flatMap escChar ++ ('"' :: rest)) =
      some (cs, rest) := by
  induction cs generalizing f with
  | nil => rfl
  | cons c t ih =>
    have hlen : (c :: t).length + (f + 1) = (t.length + (f + 1)) + 1 := by
      simp [List.length_cons]
      omega
    rw [hlen, List.flatMap_cons, List.append_assoc, parseStrBody_escChar, ih f]
    rfl

lemma one_le_escChar_length (c : Char) : 1 ≤ (escChar c).length := by
  unfold escChar
  repeat' split
  all_goals simp [uEscape]

lemma escList_length_ge (cs : List Char) : cs.length ≤ (cs.flatMap escChar).length := by
  induction cs with
  | nil => simp
  | cons c t ih =>
    have := one_le_escChar_length c
    simp only [List.flatMap_cons, List.length_append, List.length_cons]
    omega

lemma scanString_escList (cs : List Char) (rest : List Char) :
    scanString (cs.flatMap escChar ++ ('"' :: rest)) = some (cs, rest) := by
  rw [scanString]
  have h : (cs.flatMap escChar ++ ('"' :: rest)).length + 1 =
      cs.length + (((cs.flatMap escChar).length - cs.length + rest.length + 1) + 1) := by
    have := escList_length_ge cs
    simp only [List.length_append, List.length_cons]
    omega
  rw [h, parseStrBody_escList]

lemma parseVal_encStr (f : Nat) (s : String) (rest : List Char) :
    parseVal (f + 1) (encodeStringLit s ++ rest) = some (Json.str s, rest) := by
  rw [encodeStringLit, List.cons_append, List.append_assoc, List.singleton_append]
  show (scanString (s.data.flatMap escChar ++ ('"' :: rest))).map
      (fun p => (Json.str (String.mk p.1), p.2)) = some (Json.str s, rest)
  rw [scanString_escList]
  rfl

lemma dumpsElems_head (a : String) (l : List String) :
    ∃ t, dumpsElems (a :: l) = '"' :: t := by
  cases l with
  | nil => exact ⟨_, rfl⟩
  | cons b m => exact ⟨_, rfl⟩

lemma skipWs_not_ws (c : Char) (l : List Char) (h : isJsonWs c = false) :
    skipWs (c :: l) = c :: l := by
  simp [skipWs, h]

lemma skipWs_ws (c : Char) (l : List Char) (h : isJsonWs c = true) :
    skipWs (c :: l) = skipWs l := by
  simp [skipWs, h]

lemma encodeStringLit_length (s : String) :
    encodeStringLit s = '"' :: (s.data.flatMap escChar ++ ['"']) := rfl

lemma dumpsElems_length (ss : List String) (h : ss ≠ []) :
    ss.length + 1 ≤ (dumpsElems ss).length := by
  induction ss with
  | nil => exact absurd rfl h
  | cons s t ih =>
    cases t with
    | nil =>
      simp [dumpsElems, encodeStringLit]
    | cons b m =>
      have hb := ih (by simp)
      simp only [dumpsElems, encodeStringLit_length, List.length_cons,
        List.cons_append, List.length_append] at *
      omega

lemma parseArrItems_rt (ss : List String) :
    ss ≠ [] → ∀ (f : Nat) (rest : List Char) (acc : List Json),
    ss.length ≤ f →
    parseArrItems (f + 1) (dumpsElems ss ++ (']' :: rest)) acc =
      some (Json.arr (acc ++ ss.map Json.str), rest) := by
  induction ss with
  | nil => intro h; exact absurd rfl h
  | cons s t ih =>
    intro _ f rest acc hf
    obtain ⟨f1, rfl⟩ : ∃ f1, f = f1 + 1 := ⟨f - 1, by simp at hf; omega⟩
    cases t with
    | nil =>
      rw [show dumpsElems [s] = encodeStringLit s from rfl]
      rw [parseArrItems, parseVal_encStr f1 s (']' :: rest)]
      dsimp only
      rw [skipWs_not_ws _ _ (by decide)]
      simp
    | cons b m =>
      rw [show dumpsElems (s :: b :: m) =
        encodeStringLit s ++ (',' :: ' ' :: dumpsElems (b :: m)) from rfl]
      rw [List.append_assoc, List.cons_append, List.cons_append]
      rw [parseArrItems, parseVal_encStr f1 s (',' :: ' ' :: (dumpsElems (b :: m) ++ ']' :: rest))]
      dsimp only
      rw [show skipWs (',' :: ' ' :: (dumpsElems (b :: m) ++ ']' :: rest)) =
        ',' :: ' ' :: (dumpsElems (b :: m) ++ ']' :: rest) from
        skipWs_not_ws _ _ (by decide)]
      obtain ⟨tl, htl⟩ := dumpsElems_head b m
      have hs1 : skipWs (' ' :: (dumpsElems (b :: m) ++ ']' :: rest)) =
          dumpsElems (b :: m) ++ ']' :: rest := by
        rw [skipWs_ws _ _ (by decide), htl, List.cons_append,
          skipWs_not_ws _ _ (by decide)]
      obtain ⟨f2, rfl⟩ : ∃ f2, f1 = f2 + 1 := by
        refine ⟨f1 - 1, ?_⟩
        simp only [List.length_cons] at hf
        omega
      have hlen : (b :: m).length ≤ f2 + 1 := by
        simp only [List.length_cons] at hf ⊢
        omega
      show parseArrItems (f2 + 1 + 1)
          (skipWs (' ' :: (dumpsElems (b :: m) ++ ']' :: rest)))
          (acc ++ [Json.str s]) =
        some (Json.arr (acc ++ List.map Json.str (s :: b :: m)), rest)
      rw [hs1, ih (by simp) (f2 + 1) rest (acc ++ [Json.str s]) hlen]
      simp

lemma parseVal_dumps_cons (a : String) (t : List String) (f : Nat)
    (hf : (a :: t).length ≤ f) :
    parseVal (f + 1 + 1) ('[' :: (dumpsElems (a :: t) ++ [']'])) =
      some (Json.arr ((a :: t).map Json.str), []) := by
  obtain ⟨tl, htl⟩ := dumpsElems_head a t
  show (match skipWs (dumpsElems (a :: t) ++ [']']) with
    | ']' :: r2 => some (Json.arr [], r2)
    | r1 => parseArrItems (f + 1) r1 []) =
      some (Json.arr ((a :: t).map Json.str), [])
  rw [htl, List.cons_append, skipWs_not_ws _ _ (by decide)]
  show parseArrItems (f + 1) ('"' :: (tl ++ [']'])) [] =
    some (Json.arr ((a :: t).map Json.str), [])
  rw [← List.cons_append, ← htl]
  rw [show (dumpsElems (a :: t) ++ [']'] : List Char) =
    dumpsElems (a :: t) ++ (']' :: []) from rfl]
  rw [parseArrItems_rt (a :: t) (by simp) f [] [] hf]
  simp

lemma loads_dumps (l : List String) :
    json_loads (json_dumps_strList l) = some (Json.arr (l.map Json.str)) := by
  cases l with
  | nil => rfl
  | cons a t =>
    rw [json_loads, json_dumps_strList]
    show (match parseVal ((('[' :: (dumpsElems (a :: t) ++ [']'])).length + 1))
        (skipWs ('[' :: (dumpsElems (a :: t) ++ [']']))) with
      | none => none
      | some (v, r) => if skipWs r = [] then some v else none) =
      some (Json.arr ((a :: t).map Json.str))
    rw [skipWs_not_ws _ _ (by decide)]
    have hlen : ('[' :: (dumpsElems (a :: t) ++ [']'])).length + 1 =
        ((dumpsElems (a :: t)).length + 1) + 1 + 1 := by
      simp
    have hf : (a :: t).length ≤ (dumpsElems (a :: t)).length + 1 := by
      have := dumpsElems_length (a :: t) (by simp)
      omega
    rw [hlen, parseVal_dumps_cons a t ((dumpsElems (a :: t)).length + 1) hf]
    rfl

lemma asStrList_map (l : List String) : asStrList (l.map Json.str) = .ok l := by
  induction l with
  | nil => rfl
  | cons s t ih => simp [asStrList, ih, Except.map]

/-- C4: serialize-then-coerce round-trip: json-serializing any list of strings
into a cell and applying the list-field coercion yields back exactly that list,
both as the raw parsed json list and through the List[str] field validation. -/
theorem claim_C4 (l : List String) :
    parse_json_array (PyValue.str (json_dumps_strList l)) = l.map Json.str ∧
    asStrList (parse_json_array (PyValue.str (json_dumps_strList l))) =
      .ok l := by
  have h := loads_dumps l
  have h1 : parse_json_array (PyValue.str (json_dumps_strList l)) = l.map Json.str := by
    simp [parse_json_array, h]
  exact ⟨h1, by rw [h1, asStrList_map]⟩
